import Mathlib

/-!
Verification of `scripts/check-function-length.py` (function-length scanner).

The script is embedded shallowly:
* a file's content is a `List Char`; splitting on newline characters
  (`content.split('\n')` in the source) is `splitLines`;
* `count_function_lines` mirrors the Python function of the same name:
  a running brace balance is accumulated line by line from the start line,
  and the scan stops at the first line whose balance is `≤ 0` and which
  contains a closing brace (the Python `in_function` flag is set on the very
  first iteration and never cleared, so it is `True` at every test and is
  dropped here);
* the six regular expressions of `find_functions` are translated into a
  small backtracking matcher (`matchItems`) over an item syntax `RItem`;
  all six patterns are anchored (`^`), so `re.search` is a prefix match;
* `find_functions` and `main` are mirrored as pure functions; the module
  global `EXIT_CODE` becomes an explicit initial-state argument of
  `mainWithState`.

All definitions are computable and structural, so concrete runs evaluate
by `decide` / `rfl`.
-/

/-- Mirror of Python `content.split('\n')` on a character-list model of
strings: splitting the empty content yields one empty line, and every
newline character introduces a fresh (possibly empty) line. -/
def splitLines : List Char → List (List Char)
  | [] => [[]]
  | c :: cs =>
    if c = '\n' then [] :: splitLines cs
    else
      match splitLines cs with
      | l :: ls => (c :: l) :: ls
      | [] => [[c]]

/-- Per-line brace delta: `line.count('{') - line.count('}')` from
`count_function_lines` (lines 23-25 of the script). -/
def braceDelta (line : List Char) : Int :=
  (line.count '\x7b' : Int) - (line.count '\x7d' : Int)

/-- The loop of `count_function_lines` (lines 19-32): scan the remaining
lines with the accumulated brace balance `brace_count`; return
`some n` with `n` the 1-based count of lines consumed when the stop
condition (`brace_count <= 0 and '}' in line`) first holds, `none` if the
lines run out first. -/
def scanLoop : List (List Char) → Int → Option Nat
  | [], _ => none
  | line :: rest, brace_count =>
    let bc := brace_count + braceDelta line
    if bc ≤ 0 ∧ '\x7d' ∈ line then some 1
    else (scanLoop rest bc).map (· + 1)

/-- Mirror of Python `count_function_lines(content, start_line)`
(script lines 12-35): split the content into lines, scan from
`start_line` (1-indexed); if the loop never stops, return the number of
remaining lines (`len(lines) - function_start`, line 35).  Natural-number
subtraction agrees with the Python value whenever `start_line` is within
the file's line range, which is the regime all claims quantify over. -/
def count_function_lines (content : List Char) (start_line : Nat) : Nat :=
  let lines := splitLines content
  let function_start := start_line - 1
  match scanLoop (lines.drop function_start) 0 with
  | some n => n
  | none => lines.length - function_start

/-- Specification-side stop condition for the measuring loop, following the
spec's wording: at 0-based offset `j` from the scan start, the running
balance (initial balance `bc0` plus the brace deltas of the first `j+1`
scanned lines) is `≤ 0` and the line at offset `j` contains a closing
brace.  An offset beyond the end of the list never satisfies it (the
default line is empty). -/
def stopAt (bc0 : Int) (ls : List (List Char)) (j : Nat) : Prop :=
  bc0 + ((ls.take (j + 1)).map braceDelta).sum ≤ 0 ∧ '\x7d' ∈ ls.getD j []

instance (bc0 : Int) (ls : List (List Char)) (j : Nat) : Decidable (stopAt bc0 ls j) := by
  unfold stopAt; infer_instance

lemma stopAt_cons_succ (bc0 : Int) (l : List Char) (rest : List (List Char)) (j : Nat) :
    stopAt bc0 (l :: rest) (j + 1) ↔ stopAt (bc0 + braceDelta l) rest j := by
  unfold stopAt
  constructor
  · rintro ⟨h1, h2⟩
    refine ⟨?_, h2⟩
    simpa [List.take, add_assoc] using h1
  · rintro ⟨h1, h2⟩
    refine ⟨?_, h2⟩
    simpa [List.take, add_assoc] using h1

lemma scanLoop_of_stop :
    ∀ (ls : List (List Char)) (bc0 : Int) (j : Nat),
      stopAt bc0 ls j → (∀ k, k < j → ¬ stopAt bc0 ls k) →
      scanLoop ls bc0 = some (j + 1) := by
  intro ls
  induction ls with
  | nil =>
    intro bc0 j hstop _
    exact absurd hstop.2 (by simp [List.getD])
  | cons l rest ih =>
    intro bc0 j hstop hmin
    cases j with
    | zero =>
      have h1 : bc0 + braceDelta l ≤ 0 := by
        simpa [stopAt, List.take] using hstop.1
      have h2 : '\x7d' ∈ l := by simpa [stopAt, List.getD] using hstop.2
      simp [scanLoop, if_pos (And.intro h1 h2)]
    | succ j' =>
      have hnot0 : ¬ stopAt bc0 (l :: rest) 0 := hmin 0 (Nat.succ_pos j')
      have hcond : ¬ (bc0 + braceDelta l ≤ 0 ∧ '\x7d' ∈ l) := by
        intro ⟨h1, h2⟩
        exact hnot0 ⟨by simpa [List.take] using h1, by simpa [List.getD] using h2⟩
      have hrec : scanLoop rest (bc0 + braceDelta l) = some (j' + 1) := by
        apply ih
        · exact (stopAt_cons_succ bc0 l rest j').mp hstop
        · intro k hk
          intro hc
          exact hmin (k + 1) (Nat.succ_lt_succ hk) ((stopAt_cons_succ bc0 l rest k).mpr hc)
      simp [scanLoop, if_neg hcond, hrec]

lemma scanLoop_of_no_stop :
    ∀ (ls : List (List Char)) (bc0 : Int),
      (∀ j, j < ls.length → ¬ stopAt bc0 ls j) →
      scanLoop ls bc0 = none := by
  intro ls
  induction ls with
  | nil => intro bc0 _; rfl
  | cons l rest ih =>
    intro bc0 hno
    have hcond : ¬ (bc0 + braceDelta l ≤ 0 ∧ '\x7d' ∈ l) := by
      intro ⟨h1, h2⟩
      exact hno 0 (by simp) ⟨by simpa [List.take] using h1, by simpa [List.getD] using h2⟩
    have hrec : scanLoop rest (bc0 + braceDelta l) = none := by
      apply ih
      intro j hj hc
      exact hno (j + 1) (by simpa using Nat.succ_lt_succ hj)
        ((stopAt_cons_succ bc0 l rest j).mpr hc)
    simp [scanLoop, if_neg hcond, hrec]

lemma scanLoop_cons (l : List Char) (rest : List (List Char)) (bc0 : Int) :
    scanLoop (l :: rest) bc0 =
      if bc0 + braceDelta l ≤ 0 ∧ '\x7d' ∈ l then some 1
      else (scanLoop rest (bc0 + braceDelta l)).map (· + 1) := rfl

lemma scanLoop_some_bounds :
    ∀ (ls : List (List Char)) (bc0 : Int) (n : Nat),
      scanLoop ls bc0 = some n → 1 ≤ n ∧ n ≤ ls.length := by
  intro ls
  induction ls with
  | nil => intro bc0 n h; exact absurd h (by simp [scanLoop])
  | cons l rest ih =>
    intro bc0 n h
    rw [scanLoop_cons] at h
    by_cases hc : (bc0 + braceDelta l ≤ 0 ∧ '\x7d' ∈ l)
    · rw [if_pos hc] at h
      injection h with h
      simp [List.length_cons]
      omega
    · rw [if_neg hc] at h
      cases hm : scanLoop rest (bc0 + braceDelta l) with
      | none => rw [hm] at h; simp at h
      | some m =>
        rw [hm] at h
        simp at h
        have := ih (bc0 + braceDelta l) m hm
        simp [List.length_cons]
        omega

lemma count_function_lines_eq (content : List Char) (start_line : Nat) :
    count_function_lines content start_line =
      match scanLoop ((splitLines content).drop (start_line - 1)) 0 with
      | some n => n
      | none => (splitLines content).length - (start_line - 1) := rfl

/-- C1: from an in-range 1-indexed start line, `count_function_lines`
returns the inclusive number of lines up to the first line, at or after
the start, whose running open-minus-close brace balance is `≤ 0` and which
contains a closing brace (`stopAt` also requires the closing brace, so a
start line without brace characters never terminates the scan). -/
theorem C1_count_function_lines_first_stop
    (content : List Char) (start_line j : Nat)
    (h1 : 1 ≤ start_line) (h2 : start_line ≤ (splitLines content).length)
    (hstop : stopAt 0 ((splitLines content).drop (start_line - 1)) j)
    (hmin : ∀ k, k < j → ¬ stopAt 0 ((splitLines content).drop (start_line - 1)) k) :
    count_function_lines content start_line = j + 1 := by
  rw [count_function_lines_eq, scanLoop_of_stop _ 0 j hstop hmin]

/-- Witness for C1 on the file `"a{\nb\n}"`: the stop line is the third
(offset 2), so the measured span is 3. -/
theorem C1_witness :
    count_function_lines ("a\x7b\nb\n\x7d".data) 1 = 3 :=
  C1_count_function_lines_first_stop ("a\x7b\nb\n\x7d".data) 1 2
    (by decide) (by decide) (by decide) (by decide)

/-- C4: if no line at or after the in-range start satisfies the stop
condition, `count_function_lines` returns the count of all remaining lines
from the start line through the last line of the file. -/
theorem C4_count_function_lines_eof
    (content : List Char) (start_line : Nat)
    (h1 : 1 ≤ start_line) (h2 : start_line ≤ (splitLines content).length)
    (hno : ∀ j, j < ((splitLines content).drop (start_line - 1)).length →
      ¬ stopAt 0 ((splitLines content).drop (start_line - 1)) j) :
    count_function_lines content start_line = (splitLines content).length - start_line + 1 := by
  rw [count_function_lines_eq, scanLoop_of_no_stop _ 0 hno]
  show (splitLines content).length - (start_line - 1) = (splitLines content).length - start_line + 1
  omega

/-- Witness for C4 on the file `"a{\nb"`: no line ever satisfies the stop
condition, so the span from line 1 is the 2 remaining lines. -/
theorem C4_witness :
    count_function_lines ("a\x7b\nb".data) 1 = 2 :=
  C4_count_function_lines_eof ("a\x7b\nb".data) 1 (by decide) (by decide) (by decide)

/-- C5: from an in-range start line the measured span is at least 1. -/
theorem C5_count_function_lines_pos
    (content : List Char) (start_line : Nat)
    (h1 : 1 ≤ start_line) (h2 : start_line ≤ (splitLines content).length) :
    1 ≤ count_function_lines content start_line := by
  rw [count_function_lines_eq]
  cases h : scanLoop ((splitLines content).drop (start_line - 1)) 0 with
  | none =>
    show 1 ≤ (splitLines content).length - (start_line - 1)
    omega
  | some n =>
    show 1 ≤ n
    exact (scanLoop_some_bounds _ 0 n h).1

/-- Witness for C5 on a one-line file. -/
theorem C5_witness : 1 ≤ count_function_lines ("x".data) 1 :=
  C5_count_function_lines_pos ("x".data) 1 (by decide) (by decide)

/-- C10: from an in-range start line the measured span never exceeds the
number of lines from the start line through the end of the file. -/
theorem C10_count_function_lines_le
    (content : List Char) (start_line : Nat)
    (h1 : 1 ≤ start_line) (h2 : start_line ≤ (splitLines content).length) :
    count_function_lines content start_line ≤
      (splitLines content).length - start_line + 1 := by
  rw [count_function_lines_eq]
  cases h : scanLoop ((splitLines content).drop (start_line - 1)) 0 with
  | none =>
    show (splitLines content).length - (start_line - 1) ≤
      (splitLines content).length - start_line + 1
    omega
  | some n =>
    show n ≤ (splitLines content).length - start_line + 1
    have := (scanLoop_some_bounds _ 0 n h).2
    rw [List.length_drop] at this
    omega

/-- Witness for C10 on the file `"{\n}"` scanned from line 1: the span 2
equals the number of remaining lines. -/
theorem C10_witness :
    count_function_lines ("\x7b\n\x7d".data) 1 ≤ (splitLines ("\x7b\n\x7d".data)).length - 1 + 1 :=
  C10_count_function_lines_le ("\x7b\n\x7d".data) 1 (by decide) (by decide)

/-- Python character class `\s`, over the ASCII whitespace characters. -/
def isWs (c : Char) : Bool :=
  c == ' ' || c == '\t' || c == '\n' || c == '\r' || c == '\x0b' || c == '\x0c'

/-- Python character class `\w` (ASCII word characters). -/
def isWordChar (c : Char) : Bool :=
  c.isAlphanum || c == '_'

/-- One item of an anchored regular expression, covering exactly the
constructs appearing in the six patterns of `find_functions`
(script lines 46-53): literal text, a single-character class such as
`[:=]`, greedy `*` and `+` over a character class, the optional capturing
group `(word\s+)?` (every optional group in the script is a literal word
followed by `\s+`), the mandatory capturing group `(\w+)`, and the
capturing alternation of literal words `(public|private|protected)`.
`g` is the Python group number of a capturing item. -/
inductive RItem where
  | lit (w : List Char)
  | cls (p : Char → Bool)
  | star (p : Char → Bool)
  | plus (p : Char → Bool)
  | optWordWs (g : Nat) (w : List Char)
  | grpWord (g : Nat)
  | grpAlt (g : Nat) (alts : List (List Char))

/-- Length of the maximal prefix of `s` whose characters satisfy `p`
(the greedy first attempt of `*` and `+`). -/
def munch (p : Char → Bool) : List Char → Nat
  | [] => 0
  | c :: cs => if p c then munch p cs + 1 else 0

/-- Greedy backtracking for `*` over an already-computed maximal munch
`n`: try consuming `n, n-1, ..., 0` characters, first success wins. -/
def tryDrops (k : List Char → Option (List (Nat × List Char))) (s : List Char) :
    Nat → Option (List (Nat × List Char))
  | 0 => k s
  | i + 1 =>
    match k (s.drop (i + 1)) with
    | some r => some r
    | none => tryDrops k s i

/-- Greedy backtracking for `+`: like `tryDrops` but at least one
character must be consumed. -/
def tryDropsPos (k : List Char → Option (List (Nat × List Char))) (s : List Char) :
    Nat → Option (List (Nat × List Char))
  | 0 => none
  | i + 1 =>
    match k (s.drop (i + 1)) with
    | some r => some r
    | none => tryDropsPos k s i

/-- Greedy backtracking for the capturing group `(\w+)`: consume
`i+1` word characters (longest first), record group `g`'s captured text,
and run the continuation. -/
def grpWordTry (g : Nat) (k : List Char → Option (List (Nat × List Char))) (s : List Char) :
    Nat → Option (List (Nat × List Char))
  | 0 => none
  | i + 1 =>
    match k (s.drop (i + 1)) with
    | some r => some ((g, s.take (i + 1)) :: r)
    | none => grpWordTry g k s i

/-- Backtracking for the `\s+` tail of an optional group `(word\s+)?`
whose literal word has already been consumed: `s1` is the text after the
word; the group captures the word plus the consumed whitespace. -/
def optWsTry (g : Nat) (w : List Char) (k : List Char → Option (List (Nat × List Char)))
    (s1 : List Char) : Nat → Option (List (Nat × List Char))
  | 0 => none
  | i + 1 =>
    match k (s1.drop (i + 1)) with
    | some r => some ((g, w ++ s1.take (i + 1)) :: r)
    | none => optWsTry g w k s1 i

/-- Ordered alternation of literal words for `(public|private|protected)`:
try each alternative in order; a successful alternative captures its
literal as group `g`. -/
def altTry (g : Nat) (k : List Char → Option (List (Nat × List Char))) (s : List Char) :
    List (List Char) → Option (List (Nat × List Char))
  | [] => none
  | a :: as =>
    match (if a.isPrefixOf s then k (s.drop a.length) else none) with
    | some r => some ((g, a) :: r)
    | none => altTry g k s as

/-- Match one regular-expression item against `s` with continuation `k`;
captures are returned in group-completion order (Python's
`match.lastindex` is the group completing last, i.e. the last entry). -/
def matchItem : RItem → (List Char → Option (List (Nat × List Char))) → List Char →
    Option (List (Nat × List Char))
  | .lit w, k, s => if w.isPrefixOf s then k (s.drop w.length) else none
  | .cls p, k, s =>
    match s with
    | [] => none
    | c :: s1 => if p c then k s1 else none
  | .star p, k, s => tryDrops k s (munch p s)
  | .plus p, k, s => tryDropsPos k s (munch p s)
  | .optWordWs g w, k, s =>
    match (if w.isPrefixOf s then
             optWsTry g w k (s.drop w.length) (munch isWs (s.drop w.length))
           else none) with
    | some r => some r
    | none => k s
  | .grpWord g, k, s => grpWordTry g k s (munch isWordChar s)
  | .grpAlt g alts, k, s => altTry g k s alts

/-- Match a sequence of items against `s` (continuation style). -/
def matchItems : List RItem → (List Char → Option (List (Nat × List Char))) → List Char →
    Option (List (Nat × List Char))
  | [], k, s => k s
  | item :: rest, k, s => matchItem item (matchItems rest k) s

/-- Python `re.search(pattern, line)` for the script's patterns: every
pattern starts with `^`, so the search is a prefix match at position 0;
trailing text is ignored.  `some caps` holds the capture list of the
match, in completion order. -/
def reSearch (p : List RItem) (s : List Char) : Option (List (Nat × List Char)) :=
  matchItems p (fun _ => some []) s

/-- `r'^\s*(export\s+)?(async\s+)?function\s+(\w+)'` (script line 47). -/
def pattern1 : List RItem :=
  [.star isWs, .optWordWs 1 "export".data, .optWordWs 2 "async".data,
   .lit "function".data, .plus isWs, .grpWord 3]

/-- `r'^\s*(export\s+)?(async\s+)?(\w+)\s*[:=]\s*(async\s+)?function'`
(script line 48). -/
def pattern2 : List RItem :=
  [.star isWs, .optWordWs 1 "export".data, .optWordWs 2 "async".data,
   .grpWord 3, .star isWs, .cls (fun c => c == ':' || c == '='), .star isWs,
   .optWordWs 4 "async".data, .lit "function".data]

/-- `r'^\s*(public|private|protected)\s+(async\s+)?(\w+)\s*\('`
(script line 49). -/
def pattern3 : List RItem :=
  [.star isWs, .grpAlt 1 ["public".data, "private".data, "protected".data],
   .plus isWs, .optWordWs 2 "async".data, .grpWord 3, .star isWs, .lit "(".data]

/-- `r'^\s*(async\s+)?(\w+)\s*\([^)]*\)\s*[:=]\s*\{'` (script line 50). -/
def pattern4 : List RItem :=
  [.star isWs, .optWordWs 1 "async".data, .grpWord 2, .star isWs,
   .lit "(".data, .star (fun c => c != ')'), .lit ")".data, .star isWs,
   .cls (fun c => c == ':' || c == '='), .star isWs, .lit "\x7b".data]

/-- `r'^\s*(async\s+)?(\w+)\s*\([^)]*\)\s*=>\s*\{'` (script line 51). -/
def pattern5 : List RItem :=
  [.star isWs, .optWordWs 1 "async".data, .grpWord 2, .star isWs,
   .lit "(".data, .star (fun c => c != ')'), .lit ")".data, .star isWs,
   .lit "=>".data, .star isWs, .lit "\x7b".data]

/-- `r'^\s*(\w+)\s*:\s*(async\s+)?function'` (script line 52). -/
def pattern6 : List RItem :=
  [.star isWs, .grpWord 1, .star isWs, .lit ":".data, .star isWs,
   .optWordWs 2 "async".data, .lit "function".data]

/-- The fixed ordered pattern list of `find_functions`
(script lines 46-53). -/
def patterns : List (List RItem) :=
  [pattern1, pattern2, pattern3, pattern4, pattern5, pattern6]

/-- `match.group(match.lastindex) if match.lastindex else 'anonymous'`
(script line 60): the name is the text of the group that completed last;
if no group captured, the literal fallback is used. -/
def func_name (caps : List (Nat × List Char)) : String :=
  match caps.getLast? with
  | some gv => String.mk gv.2
  | none => "anonymous"

/-- The inner pattern loop of `find_functions` (lines 56-58, 67): try the
patterns in order and stop at the first match (`break`). -/
def findFirstMatch : List (List RItem) → List Char → Option (List (Nat × List Char))
  | [], _ => none
  | p :: ps, s =>
    match reSearch p s with
    | some caps => some caps
    | none => findFirstMatch ps s


/-- Items that always record a capture when they match: the mandatory
groups `(\w+)` and `(public|private|protected)`. -/
def RItem.isMandatoryGroup : RItem → Bool
  | .grpWord _ => true
  | .grpAlt _ _ => true
  | _ => false

/-- A pattern containing a mandatory capturing group. -/
def hasMandatoryGroup (items : List RItem) : Bool :=
  items.any RItem.isMandatoryGroup

lemma tryDrops_ne {k : List Char → Option (List (Nat × List Char))}
    (hk : ∀ s r, k s = some r → r ≠ []) (s : List Char) :
    ∀ n r, tryDrops k s n = some r → r ≠ [] := by
  intro n
  induction n with
  | zero => intro r h; exact hk s r h
  | succ i ih =>
    intro r h
    unfold tryDrops at h
    cases hm : k (s.drop (i + 1)) with
    | some r2 => rw [hm] at h; injection h with h; exact h ▸ hk _ r2 hm
    | none => rw [hm] at h; exact ih r h

lemma tryDropsPos_ne {k : List Char → Option (List (Nat × List Char))}
    (hk : ∀ s r, k s = some r → r ≠ []) (s : List Char) :
    ∀ n r, tryDropsPos k s n = some r → r ≠ [] := by
  intro n
  induction n with
  | zero => intro r h; exact absurd h (by simp [tryDropsPos])
  | succ i ih =>
    intro r h
    unfold tryDropsPos at h
    cases hm : k (s.drop (i + 1)) with
    | some r2 => rw [hm] at h; injection h with h; exact h ▸ hk _ r2 hm
    | none => rw [hm] at h; exact ih r h

lemma grpWordTry_cons (g : Nat) (k : List Char → Option (List (Nat × List Char)))
    (s : List Char) :
    ∀ n r, grpWordTry g k s n = some r → ∃ v r2, r = (g, v) :: r2 := by
  intro n
  induction n with
  | zero => intro r h; exact absurd h (by simp [grpWordTry])
  | succ i ih =>
    intro r h
    unfold grpWordTry at h
    cases hm : k (s.drop (i + 1)) with
    | some r2 =>
      rw [hm] at h; injection h with h
      exact ⟨s.take (i + 1), r2, h.symm⟩
    | none => rw [hm] at h; exact ih r h

lemma optWsTry_cons (g : Nat) (w : List Char)
    (k : List Char → Option (List (Nat × List Char))) (s1 : List Char) :
    ∀ n r, optWsTry g w k s1 n = some r → ∃ v r2, r = (g, v) :: r2 := by
  intro n
  induction n with
  | zero => intro r h; exact absurd h (by simp [optWsTry])
  | succ i ih =>
    intro r h
    unfold optWsTry at h
    cases hm : k (s1.drop (i + 1)) with
    | some r2 =>
      rw [hm] at h; injection h with h
      exact ⟨w ++ s1.take (i + 1), r2, h.symm⟩
    | none => rw [hm] at h; exact ih r h

lemma altTry_cons (g : Nat) (k : List Char → Option (List (Nat × List Char)))
    (s : List Char) :
    ∀ alts r, altTry g k s alts = some r → ∃ v r2, r = (g, v) :: r2 := by
  intro alts
  induction alts with
  | nil => intro r h; exact absurd h (by simp [altTry])
  | cons a as ih =>
    intro r h
    unfold altTry at h
    cases hm : (if a.isPrefixOf s then k (s.drop a.length) else none) with
    | some r2 =>
      rw [hm] at h; injection h with h
      exact ⟨a, r2, h.symm⟩
    | none => rw [hm] at h; exact ih r h

lemma matchItem_lit (w : List Char) (k : List Char → Option (List (Nat × List Char)))
    (s : List Char) :
    matchItem (.lit w) k s = if w.isPrefixOf s then k (s.drop w.length) else none := rfl

lemma matchItem_cls_nil (p : Char → Bool) (k : List Char → Option (List (Nat × List Char))) :
    matchItem (.cls p) k [] = none := rfl

lemma matchItem_cls_cons (p : Char → Bool) (k : List Char → Option (List (Nat × List Char)))
    (c : Char) (s1 : List Char) :
    matchItem (.cls p) k (c :: s1) = if p c then k s1 else none := rfl

lemma matchItem_star (p : Char → Bool) (k : List Char → Option (List (Nat × List Char)))
    (s : List Char) :
    matchItem (.star p) k s = tryDrops k s (munch p s) := rfl

lemma matchItem_plus (p : Char → Bool) (k : List Char → Option (List (Nat × List Char)))
    (s : List Char) :
    matchItem (.plus p) k s = tryDropsPos k s (munch p s) := rfl

lemma matchItem_opt (g : Nat) (w : List Char)
    (k : List Char → Option (List (Nat × List Char))) (s : List Char) :
    matchItem (.optWordWs g w) k s =
      match (if w.isPrefixOf s then
               optWsTry g w k (s.drop w.length) (munch isWs (s.drop w.length))
             else none) with
      | some r => some r
      | none => k s := rfl

lemma matchItem_grpWord (g : Nat) (k : List Char → Option (List (Nat × List Char)))
    (s : List Char) :
    matchItem (.grpWord g) k s = grpWordTry g k s (munch isWordChar s) := rfl

lemma matchItem_grpAlt (g : Nat) (alts : List (List Char))
    (k : List Char → Option (List (Nat × List Char))) (s : List Char) :
    matchItem (.grpAlt g alts) k s = altTry g k s alts := rfl

lemma matchItem_ne (item : RItem) {k : List Char → Option (List (Nat × List Char))}
    (hk : ∀ s r, k s = some r → r ≠ []) :
    ∀ s r, matchItem item k s = some r → r ≠ [] := by
  intro s r h
  cases item with
  | lit w =>
    rw [matchItem_lit] at h
    split at h
    · exact hk _ r h
    · simp at h
  | cls p =>
    cases s with
    | nil => rw [matchItem_cls_nil] at h; simp at h
    | cons c s1 =>
      rw [matchItem_cls_cons] at h
      split at h
      · exact hk _ r h
      · simp at h
  | star p => rw [matchItem_star] at h; exact tryDrops_ne hk s _ r h
  | plus p => rw [matchItem_plus] at h; exact tryDropsPos_ne hk s _ r h
  | optWordWs g w =>
    rw [matchItem_opt] at h
    split at h
    · rename_i r2 hm
      injection h with h
      split at hm
      · obtain ⟨v, r3, rfl⟩ := optWsTry_cons g w k _ _ r2 hm
        simp [← h]
      · simp at hm
    · rename_i hm
      exact hk s r h
  | grpWord g =>
    rw [matchItem_grpWord] at h
    obtain ⟨v, r2, rfl⟩ := grpWordTry_cons g k s _ r h
    simp
  | grpAlt g alts =>
    rw [matchItem_grpAlt] at h
    obtain ⟨v, r2, rfl⟩ := altTry_cons g k s alts r h
    simp

lemma matchItem_mand_ne (item : RItem) (hm : item.isMandatoryGroup = true)
    (k : List Char → Option (List (Nat × List Char))) :
    ∀ s r, matchItem item k s = some r → r ≠ [] := by
  intro s r h
  cases item with
  | grpWord g =>
    rw [matchItem_grpWord] at h
    obtain ⟨v, r2, rfl⟩ := grpWordTry_cons g k s _ r h
    simp
  | grpAlt g alts =>
    rw [matchItem_grpAlt] at h
    obtain ⟨v, r2, rfl⟩ := altTry_cons g k s alts r h
    simp
  | lit w => simp [RItem.isMandatoryGroup] at hm
  | cls p => simp [RItem.isMandatoryGroup] at hm
  | star p => simp [RItem.isMandatoryGroup] at hm
  | plus p => simp [RItem.isMandatoryGroup] at hm
  | optWordWs g w => simp [RItem.isMandatoryGroup] at hm

lemma matchItems_mand_ne :
    ∀ (items : List RItem), hasMandatoryGroup items = true →
      ∀ (k : List Char → Option (List (Nat × List Char))) s r,
        matchItems items k s = some r → r ≠ [] := by
  intro items
  induction items with
  | nil => intro h; simp [hasMandatoryGroup] at h
  | cons item rest ih =>
    intro h k s r hr
    rw [hasMandatoryGroup, List.any_cons, Bool.or_eq_true] at h
    cases h with
    | inl hitem => exact matchItem_mand_ne item hitem (matchItems rest k) s r hr
    | inr hrest =>
      exact matchItem_ne item (fun s2 r2 h2 => ih hrest k s2 r2 h2) s r hr

/-- C9: for each of the six detection patterns, every successful match
carries at least one capture, so the `'anonymous'` fallback of line 60 is
unreachable and the extracted name is the text captured by the
last-completed group of the matching pattern. -/
theorem C9_match_always_captures :
    ∀ p ∈ patterns, ∀ (s : List Char) (caps : List (Nat × List Char)),
      reSearch p s = some caps →
      caps ≠ [] ∧
      func_name caps = String.mk (caps.getLast?.getD ((0 : Nat), ([] : List Char))).2 ∧
      caps.getLast?.getD ((0 : Nat), ([] : List Char)) ∈ caps := by
  intro p hp s caps h
  have hmand : hasMandatoryGroup p = true := by
    simp only [patterns, List.mem_cons, List.not_mem_nil, or_false] at hp
    rcases hp with rfl | rfl | rfl | rfl | rfl | rfl <;> rfl
  have hne : caps ≠ [] := matchItems_mand_ne p hmand _ s caps h
  obtain ⟨gv, hgv⟩ : ∃ gv, caps.getLast? = some gv := by
    cases hlast : caps.getLast? with
    | none => exact absurd (List.getLast?_eq_none_iff.mp hlast) hne
    | some gv => exact ⟨gv, rfl⟩
  refine ⟨hne, ?_, ?_⟩
  · unfold func_name
    rw [hgv]
    rfl
  · rw [hgv]
    obtain ⟨hne2, heq⟩ := List.mem_getLast?_eq_getLast (by simpa using hgv)
    exact heq ▸ List.getLast_mem hne2

/-- Witness for C9: pattern 1 on the line `"function foo"` captures
group 3 with text `"foo"`, which is the extracted name. -/
theorem C9_witness :
    ([((3 : Nat), "foo".data)] : List (Nat × List Char)) ≠ [] ∧
      func_name [((3 : Nat), "foo".data)] =
        String.mk (([((3 : Nat), "foo".data)] : List (Nat × List Char)).getLast?.getD
          ((0 : Nat), ([] : List Char))).2 ∧
      (([((3 : Nat), "foo".data)] : List (Nat × List Char)).getLast?.getD
          ((0 : Nat), ([] : List Char))) ∈ ([((3 : Nat), "foo".data)] : List (Nat × List Char)) :=
  C9_match_always_captures pattern1 (by simp [patterns]) "function foo".data
    [((3 : Nat), "foo".data)] (by decide)

/-- `MAX_LINES = 120` (script line 9). -/
def MAX_LINES : Nat := 120

/-- The body of the per-line loop of `find_functions` (script lines
56-67) for one line `l` with 1-based number `i`: on the first matching
pattern, extract the name, measure the span, and emit a violation record
exactly when the span strictly exceeds the threshold. -/
def violationAt (max_lines : Nat) (content : List Char) (l : List Char) (i : Nat) :
    List (Nat × String × Nat) :=
  match findFirstMatch patterns l with
  | some caps =>
    if count_function_lines content i > max_lines then
      [(i, func_name caps, count_function_lines content i)]
    else []
  | none => []

/-- The `for i, line in enumerate(lines, 1)` loop of `find_functions`
(script line 55), started at line counter `i`. -/
def find_functions_from (max_lines : Nat) (content : List Char) :
    List (List Char) → Nat → List (Nat × String × Nat)
  | [], _ => []
  | l :: ls, i => violationAt max_lines content l i ++ find_functions_from max_lines content ls (i + 1)

/-- `find_functions` with the length threshold as an explicit parameter,
as in the spec's `run(source_directory, max_lines)`; the script fixes it
to the constant `MAX_LINES`. -/
def find_functions_max (max_lines : Nat) (content : List Char) : List (Nat × String × Nat) :=
  find_functions_from max_lines content (splitLines content) 1

/-- Mirror of Python `find_functions(file_path)` (script lines 37-69),
taking the file's text directly: the result lists the violations
`(line number, function name, measured length)` in line order. -/
def find_functions (content : List Char) : List (Nat × String × Nat) :=
  find_functions_max MAX_LINES content

lemma violationAt_mem (max_lines : Nat) (content : List Char) (l : List Char) (i : Nat)
    (v : Nat × String × Nat) :
    v ∈ violationAt max_lines content l i →
      ∃ caps, findFirstMatch patterns l = some caps ∧
        count_function_lines content i > max_lines ∧
        v = (i, func_name caps, count_function_lines content i) := by
  unfold violationAt
  split
  · rename_i caps hM
    split
    · rename_i hgt
      intro hv
      rw [List.mem_singleton] at hv
      exact ⟨caps, hM, hgt, hv⟩
    · intro hv
      simp at hv
  · intro hv
    simp at hv

lemma violationAt_mem_of (max_lines : Nat) (content : List Char) (l : List Char) (i : Nat)
    (caps : List (Nat × List Char))
    (h1 : findFirstMatch patterns l = some caps)
    (h2 : count_function_lines content i > max_lines) :
    (i, func_name caps, count_function_lines content i) ∈ violationAt max_lines content l i := by
  unfold violationAt
  split
  · rename_i caps2 hM
    rw [h1] at hM
    injection hM with hM
    subst hM
    rw [if_pos h2]
    exact List.mem_singleton.mpr rfl
  · rename_i hM
    rw [h1] at hM
    exact absurd hM (by simp)

lemma find_functions_from_nil (max_lines : Nat) (content : List Char) (i : Nat) :
    find_functions_from max_lines content [] i = [] := rfl

lemma find_functions_from_cons (max_lines : Nat) (content : List Char)
    (l : List Char) (ls : List (List Char)) (i : Nat) :
    find_functions_from max_lines content (l :: ls) i =
      violationAt max_lines content l i ++ find_functions_from max_lines content ls (i + 1) := rfl

lemma find_functions_from_mem (max_lines : Nat) (content : List Char) :
    ∀ (ls : List (List Char)) (i0 : Nat) (v : Nat × String × Nat),
      v ∈ find_functions_from max_lines content ls i0 →
      ∃ j, ∃ h : j < ls.length, ∃ caps,
        findFirstMatch patterns (ls.get ⟨j, h⟩) = some caps ∧
        count_function_lines content (i0 + j) > max_lines ∧
        v = (i0 + j, func_name caps, count_function_lines content (i0 + j)) := by
  intro ls
  induction ls with
  | nil => intro i0 v hv; simp [find_functions_from_nil] at hv
  | cons l ls ih =>
    intro i0 v hv
    rw [find_functions_from_cons] at hv
    rcases List.mem_append.mp hv with hv | hv
    · obtain ⟨caps, hM, hgt, hveq⟩ := violationAt_mem _ _ _ _ _ hv
      exact ⟨0, by simp, caps, hM, by simpa using hgt, by simpa using hveq⟩
    · obtain ⟨j, hj, caps, hM, hgt, hveq⟩ := ih (i0 + 1) v hv
      refine ⟨j + 1, by simpa using Nat.succ_lt_succ hj, caps, hM, ?_, ?_⟩
      · have e : i0 + (j + 1) = i0 + 1 + j := by omega
        rw [e]; exact hgt
      · have e : i0 + (j + 1) = i0 + 1 + j := by omega
        rw [e]; exact hveq

lemma find_functions_from_mem_of (max_lines : Nat) (content : List Char) :
    ∀ (ls : List (List Char)) (i0 j : Nat) (h : j < ls.length)
      (caps : List (Nat × List Char)),
      findFirstMatch patterns (ls.get ⟨j, h⟩) = some caps →
      count_function_lines content (i0 + j) > max_lines →
      (i0 + j, func_name caps, count_function_lines content (i0 + j)) ∈
        find_functions_from max_lines content ls i0 := by
  intro ls
  induction ls with
  | nil => intro i0 j h; simp at h
  | cons l ls ih =>
    intro i0 j h caps hM hgt
    rw [find_functions_from_cons]
    cases j with
    | zero =>
      apply List.mem_append_left
      simpa using violationAt_mem_of max_lines content l i0 caps hM (by simpa using hgt)
    | succ j' =>
      apply List.mem_append_right
      have e : i0 + (j' + 1) = i0 + 1 + j' := by omega
      rw [e]
      exact ih (i0 + 1) j' (Nat.lt_of_succ_lt_succ h) caps hM (e ▸ hgt)

lemma find_functions_from_lb (max_lines : Nat) (content : List Char)
    (ls : List (List Char)) (i0 : Nat) (v : Nat × String × Nat)
    (hv : v ∈ find_functions_from max_lines content ls i0) : i0 ≤ v.1 := by
  obtain ⟨j, hj, caps, _, _, hveq⟩ := find_functions_from_mem max_lines content ls i0 v hv
  rw [hveq]
  exact Nat.le_add_right i0 j

lemma find_functions_from_pairwise (max_lines : Nat) (content : List Char) :
    ∀ (ls : List (List Char)) (i0 : Nat),
      List.Pairwise (fun a b => a.1 < b.1) (find_functions_from max_lines content ls i0) := by
  intro ls
  induction ls with
  | nil => intro i0; simp [find_functions_from_nil]
  | cons l ls ih =>
    intro i0
    rw [find_functions_from_cons, List.pairwise_append]
    refine ⟨?_, ih (i0 + 1), ?_⟩
    · unfold violationAt
      split
      · split
        · simp
        · simp
      · simp
    · intro a ha b hb
      obtain ⟨caps, _, _, haeq⟩ := violationAt_mem _ _ _ _ _ ha
      have hbl := find_functions_from_lb max_lines content ls (i0 + 1) b hb
      rw [haeq]
      simp only []
      omega

lemma pairwise_fst_countP_le_one (i : Nat) :
    ∀ (l : List (Nat × String × Nat)),
      List.Pairwise (fun a b => a.1 < b.1) l →
      l.countP (fun v => v.1 == i) ≤ 1 := by
  intro l
  induction l with
  | nil => simp
  | cons a t ih =>
    intro hp
    rw [List.countP_cons]
    by_cases hfa : a.1 = i
    · have ht : t.countP (fun v => v.1 == i) = 0 := by
        rw [List.countP_eq_zero]
        intro b hb
        have := (List.pairwise_cons.mp hp).1 b hb
        simp only [beq_iff_eq]
        omega
      simp [ht, hfa]
    · have := ih (List.pairwise_cons.mp hp).2
      simp [hfa]
      omega

/-- C2: for a candidate line (an in-range line matching a pattern) and
any threshold `max_lines ≥ 1`, a measured span equal to the threshold
produces no violation at that line, a span equal to `threshold + 1`
produces exactly one, and membership of the candidate's violation record
is equivalent to the strict comparison `span > max_lines`. -/
theorem C2_threshold_boundary (max_lines : Nat) (content : List Char) (i : Nat)
    (l : List Char) (caps : List (Nat × List Char))
    (hmax : 1 ≤ max_lines) (hi : 1 ≤ i)
    (hl : (splitLines content).get? (i - 1) = some l)
    (hM : findFirstMatch patterns l = some caps) :
    (count_function_lines content i = max_lines →
      (find_functions_max max_lines content).countP (fun v => v.1 == i) = 0)
    ∧ (count_function_lines content i = max_lines + 1 →
      (find_functions_max max_lines content).countP (fun v => v.1 == i) = 1)
    ∧ ((i, func_name caps, count_function_lines content i) ∈
          find_functions_max max_lines content
        ↔ count_function_lines content i > max_lines) := by
  obtain ⟨hlt, hget⟩ := List.get?_eq_some.mp hl
  have e : 1 + (i - 1) = i := by omega
  have hmem_of : count_function_lines content i > max_lines →
      (i, func_name caps, count_function_lines content i) ∈
        find_functions_max max_lines content := by
    intro hgt
    have hM2 : findFirstMatch patterns ((splitLines content).get ⟨i - 1, hlt⟩) = some caps := by
      rw [hget]; exact hM
    have h := find_functions_from_mem_of max_lines content (splitLines content) 1 (i - 1)
      hlt caps hM2 (by rw [e]; exact hgt)
    rw [e] at h
    exact h
  have hmem_inv : ∀ v ∈ find_functions_max max_lines content, (v.1 == i) = true →
      count_function_lines content i > max_lines := by
    intro v hv hb
    obtain ⟨j, hj, caps2, hM2, hgt, hveq⟩ :=
      find_functions_from_mem max_lines content (splitLines content) 1 v hv
    rw [beq_iff_eq] at hb
    have hji : 1 + j = i := by rw [hveq] at hb; simpa using hb
    rw [← hji]
    exact hgt
  refine ⟨?_, ?_, ?_⟩
  · intro hcnt
    rw [List.countP_eq_zero]
    intro v hv hb
    have := hmem_inv v hv hb
    omega
  · intro hcnt
    have hgt : count_function_lines content i > max_lines := by omega
    have hle := pairwise_fst_countP_le_one i _
      (find_functions_from_pairwise max_lines content (splitLines content) 1)
    have hpos : 0 < (find_functions_max max_lines content).countP (fun v => v.1 == i) :=
      List.countP_pos_iff.mpr
        ⟨(i, func_name caps, count_function_lines content i), hmem_of hgt, beq_self_eq_true i⟩
    unfold find_functions_max at hpos ⊢
    omega
  · constructor
    · intro hmem
      exact hmem_inv _ hmem (by simp)
    · exact hmem_of

/-- Witness for C2 on the file `"function f() {\n}"` with threshold 1:
the single function spans 2 = 1 + 1 lines, so exactly one violation is
recorded at line 1. -/
theorem C2_witness :
    (find_functions_max 1 ("function f() \x7b\n\x7d".data)).countP (fun v => v.1 == 1) = 1 :=
  (C2_threshold_boundary 1 ("function f() \x7b\n\x7d".data) 1 ("function f() \x7b".data)
    [((3 : Nat), "f".data)] (by decide) (by decide) (by decide) (by decide)).2.1 (by decide)

lemma findFirstMatch_cons (p : List RItem) (ps : List (List RItem)) (s : List Char) :
    findFirstMatch (p :: ps) s =
      match reSearch p s with
      | some caps => some caps
      | none => findFirstMatch ps s := rfl

lemma findFirstMatch_eq_of :
    ∀ (ps : List (List RItem)) (s : List Char) (k : Nat) (p : List RItem)
      (caps : List (Nat × List Char)),
      ps.get? k = some p →
      (∀ j, j < k → ∀ q, ps.get? j = some q → reSearch q s = none) →
      reSearch p s = some caps →
      findFirstMatch ps s = some caps := by
  intro ps
  induction ps with
  | nil => intro s k p caps hk; simp at hk
  | cons q ps ih =>
    intro s k p caps hk hearly hm
    cases k with
    | zero =>
      have hq : q = p := Option.some.inj hk
      subst hq
      rw [findFirstMatch_cons, hm]
    | succ k2 =>
      have hq : reSearch q s = none := hearly 0 (Nat.succ_pos k2) q rfl
      rw [findFirstMatch_cons, hq]
      exact ih s k2 p caps (by simpa using hk)
        (fun j hj r hr => hearly (j + 1) (Nat.succ_lt_succ hj) r (by simpa using hr)) hm

/-- C6: on a line matched by the `k`-th pattern and by no earlier
pattern, `find_functions` uses that pattern's captures: the name recorded
for the candidate is the text of the designated (last-completed) capture
group, and the literal `"anonymous"` is used exactly when no group
captured. -/
theorem C6_first_match_name (s : List Char) (k : Nat) (p : List RItem)
    (caps : List (Nat × List Char))
    (hk : patterns.get? k = some p)
    (hearly : ∀ j, j < k → ∀ q, patterns.get? j = some q → reSearch q s = none)
    (hm : reSearch p s = some caps) :
    findFirstMatch patterns s = some caps
    ∧ (caps.getLast? = none → func_name caps = "anonymous")
    ∧ (caps.getLast?.isSome = true →
        func_name caps = String.mk (caps.getLast?.getD ((0 : Nat), ([] : List Char))).2) := by
  refine ⟨findFirstMatch_eq_of patterns s k p caps hk hearly hm, ?_, ?_⟩
  · intro h
    unfold func_name
    rw [h]
  · intro h
    unfold func_name
    cases hg : caps.getLast? with
    | none => rw [hg] at h; simp at h
    | some gv => rfl

/-- Witness for C6: on the line `"function foo"` the first pattern
matches with capture `(3, "foo")`, and that capture list is what the
pattern loop returns. -/
theorem C6_witness :
    findFirstMatch patterns ("function foo".data) = some [((3 : Nat), "foo".data)] :=
  (C6_first_match_name ("function foo".data) 0 pattern1 [((3 : Nat), "foo".data)]
    rfl (fun j hj _ _ => absurd hj (Nat.not_lt_zero j)) (by decide)).1

/-- C7: per file the violation records are strictly ascending in line
number, each line contributes at most one record (and none when no
pattern matches it), and the pattern loop stops at the first matching
pattern of the fixed priority order. -/
theorem C7_one_candidate_per_line (max_lines : Nat) (content : List Char) :
    List.Pairwise (fun a b => a.1 < b.1) (find_functions_max max_lines content)
    ∧ (∀ i, (find_functions_max max_lines content).countP (fun v => v.1 == i) ≤ 1)
    ∧ (∀ i l, 1 ≤ i → (splitLines content).get? (i - 1) = some l →
        findFirstMatch patterns l = none →
        (find_functions_max max_lines content).countP (fun v => v.1 == i) = 0)
    ∧ (∀ (p : List RItem) (ps : List (List RItem)) (s : List Char)
        (caps : List (Nat × List Char)), reSearch p s = some caps →
        findFirstMatch (p :: ps) s = some caps) := by
  refine ⟨find_functions_from_pairwise max_lines content (splitLines content) 1, ?_, ?_, ?_⟩
  · intro i
    exact pairwise_fst_countP_le_one i _
      (find_functions_from_pairwise max_lines content (splitLines content) 1)
  · intro i l hi hl hnone
    rw [List.countP_eq_zero]
    intro v hv hb
    obtain ⟨j, hj, caps, hM, _, hveq⟩ :=
      find_functions_from_mem max_lines content (splitLines content) 1 v hv
    rw [beq_iff_eq] at hb
    have hji : 1 + j = i := by rw [hveq] at hb; simpa using hb
    have hjeq : j = i - 1 := by omega
    subst hjeq
    have h2 := List.get?_eq_get hj
    rw [hl] at h2
    injection h2 with h2
    rw [← h2] at hM
    rw [hnone] at hM
    exact Option.noConfusion hM
  · intro p ps s caps hm
    rw [findFirstMatch_cons, hm]

/-- Witness for C7 on the file `"function f() {\nhello\n}"`: line 2
matches no pattern, so no violation record carries line number 2. -/
theorem C7_witness :
    (find_functions_max 120 ("function f() \x7b\nhello\n\x7d".data)).countP
      (fun v => v.1 == 2) = 0 :=
  (C7_one_candidate_per_line 120 ("function f() \x7b\nhello\n\x7d".data)).2.2.1 2
    ("hello".data) (by decide) (by decide) (by decide)

/-- The body of `main` (script lines 71-94) with the module-global
`EXIT_CODE` made explicit: `exit0` is the value `EXIT_CODE` holds when
`main` starts (0 at module initialisation, script line 10).  `src_dir`
is `none` when `Path('src')` does not exist; otherwise it carries the
`(path, content)` pairs of the `.ts` files enumerated by
`src_dir.rglob('*.ts')`.  The result is the process exit status paired
with the reported violation records `(path, line, name, length)`:
a missing directory exits 1 immediately with nothing scanned, and
otherwise `EXIT_CODE` is set to 1 on each reported violation, so the
final status is `exit0` exactly when no violation was found. -/
def mainWithState (exit0 : Nat) (src_dir : Option (List (String × List Char))) :
    Nat × List (String × Nat × String × Nat) :=
  match src_dir with
  | none => (1, [])
  | some files =>
    let viols := files.flatMap (fun f => (find_functions f.2).map (fun v => (f.1, v)))
    (if viols.isEmpty then exit0 else 1, viols)

/-- One process run of the script (the spec's `run` operation):
`EXIT_CODE` starts at 0. -/
def run (src_dir : Option (List (String × List Char))) :
    Nat × List (String × Nat × String × Nat) :=
  mainWithState 0 src_dir

/-- C3: the run exits 0 exactly when the source directory exists and no
violation was found, exits 1 exactly when the directory is missing or at
least one violation was found, and a missing directory yields the failure
status with an empty violation list (nothing scanned). -/
theorem C3_exit_status (src_dir : Option (List (String × List Char))) :
    ((run src_dir).1 = 0 ↔ src_dir ≠ none ∧ (run src_dir).2 = [])
    ∧ ((run src_dir).1 = 1 ↔ src_dir = none ∨ (run src_dir).2 ≠ [])
    ∧ (src_dir = none → run src_dir = (1, [])) := by
  cases src_dir with
  | none => simp [run, mainWithState]
  | some files =>
    simp only [run, mainWithState]
    by_cases h : (files.flatMap (fun f => (find_functions f.2).map (fun v => (f.1, v)))).isEmpty
    · simp [h, List.isEmpty_iff.mp h]
    · have h2 : files.flatMap (fun f => (find_functions f.2).map (fun v => (f.1, v))) ≠ [] := by
        intro he
        rw [he] at h
        exact h rfl
      simp [h, h2]

/-- Witness for C3: a missing source directory exits 1 with no
violations reported. -/
theorem C3_witness : run none = (1, []) :=
  (C3_exit_status none).2.2 rfl

/-- C8: the scan is a pure function of the directory contents, and even
if the module global `EXIT_CODE` leaked from one run into the next, a
second run over the same directory yields the identical violation list
and exit status. -/
theorem C8_scan_idempotent (src_dir : Option (List (String × List Char))) :
    mainWithState ((mainWithState 0 src_dir).1) src_dir = mainWithState 0 src_dir := by
  cases src_dir with
  | none => rfl
  | some files =>
    simp only [mainWithState]
    by_cases h : (files.flatMap (fun f => (find_functions f.2).map (fun v => (f.1, v)))).isEmpty
    · simp [h]
    · simp [h]

/-- Witness for C8 on a concrete one-file directory. -/
theorem C8_witness :
    mainWithState ((mainWithState 0 (some [("a.ts", "function f() \x7b\n\x7d".data)])).1)
        (some [("a.ts", "function f() \x7b\n\x7d".data)]) =
      mainWithState 0 (some [("a.ts", "function f() \x7b\n\x7d".data)]) :=
  C8_scan_idempotent (some [("a.ts", "function f() \x7b\n\x7d".data)])
